import Mathlib

/-!
Shallow embedding of the tecnocratica libdns provider (tecnocratica.go).

Strings are modelled as Lean `String`s; the Go standard-library string
helpers used by the source (`strings.TrimSuffix`, `strings.CutSuffix`,
`strings.HasSuffix`, `strings.Trim` with a one-character cutset,
`strings.Fields`, `strings.Join` with `" "`, and `fmt.Sscanf` with `"%d"`)
are embedded below with their Go semantics.  `strings.Fields` splits on
`unicode.IsSpace`; the embedding covers the Latin-1 part of that predicate,
which is exhaustive for DNS record data.  TTLs are carried as integer
seconds on both sides (the source converts `time.Duration` to whole
seconds with `int(d.Seconds())`).

The provider HTTP client and the libdns codec (`rr.Parse()`) are external
collaborators; they are modelled as an oracle (`Client`) of functions that
may fail, and every stateful operation additionally returns the list of
create/update/delete calls it issued, in order.
-/

namespace Tecnocratica

/-- The Latin-1 portion of Go's `unicode.IsSpace`. -/
def goSpace (c : Char) : Bool :=
  c == ' ' || c == '\t' || c == '\n' || c == '\r' ||
    c == Char.ofNat 11 || c == Char.ofNat 12 || c == Char.ofNat 133 || c == Char.ofNat 160

/-- Go `strings.TrimSuffix`: remove one copy of `suffix` if present. -/
def trimSuffixGo (s suffix : String) : String :=
  if suffix.data.isSuffixOf s.data then
    ⟨s.data.take (s.data.length - suffix.data.length)⟩
  else s

/-- Go `strings.HasSuffix`. -/
def hasSuffixGo (s suffix : String) : Bool :=
  suffix.data.isSuffixOf s.data

/-- Go `strings.CutSuffix`: `(before, true)` if `suffix` is a suffix (the
empty suffix always matches), `(s, false)` otherwise. -/
def cutSuffixGo (s suffix : String) : String × Bool :=
  if suffix.data.isSuffixOf s.data then
    (⟨s.data.take (s.data.length - suffix.data.length)⟩, true)
  else (s, false)

/-- Go `strings.Trim(s, cutset)` for a one-character cutset: drop the
character from both ends. -/
def trimCharGo (s : String) (c : Char) : String :=
  ⟨(((s.data.dropWhile (· == c)).reverse.dropWhile (· == c)).reverse)⟩

/-- Go `strings.Fields`: split around runs of whitespace. -/
def fieldsGo (s : String) : List String :=
  ((s.data.splitOnP goSpace).filter (fun l => !l.isEmpty)).map (fun l => (⟨l⟩ : String))

/-- Go `strings.Join(parts, " ")`. -/
def joinSpaceGo (parts : List String) : String :=
  String.intercalate " " parts

/-- Go `fmt.Sscanf(s, "%d", &n)`: skip leading space, read an optionally
signed decimal integer; on a failed parse the target keeps its zero value. -/
def sscanfIntGo (s : String) : Int :=
  let l := s.data.dropWhile goSpace
  let core : List Char → Int := fun cs =>
    let ds := cs.takeWhile (·.isDigit)
    if ds.isEmpty then 0 else
      (ds.foldl (fun a c => a * 10 + (c.toNat - '0'.toNat)) 0 : Nat)
  match l with
  | '-' :: rest => - core rest
  | '+' :: rest => core rest
  | _ => core l

/-- The view of a libdns record used by the source: `rec.RR()` /
`libdns.RR{...}`.  Fields mirror `libdns.RR` (TTL as integer seconds). -/
structure RR where
  name : String
  type : String
  data : String
  ttl : Int
deriving DecidableEq, Inhabited

/-- The provider wire record (`Record` in the source). -/
structure Record where
  id : Int := 0
  name : String
  type : String
  content : String
  ttl : Int
  priority : Int := 0
deriving DecidableEq, Inhabited

/-- A provider DNS zone (`Zone` in the source). -/
structure Zone where
  id : Int
  name : String
deriving DecidableEq, Inhabited

/-- `getZoneID`: normalize the requested zone name and each candidate by
stripping one trailing dot; return the id of the first exact match, or
`none` (the source's "zone not found" error). -/
def getZoneID (zones : List Zone) (zone : String) : Option Int :=
  let zoneName := trimSuffixGo zone "."
  (zones.find? (fun z => trimSuffixGo z.name "." == zoneName)).map Zone.id

/-- `libdnsToInternal`: convert a libdns record (via its RR view) to a
provider record. -/
def libdnsToInternal (zone : String) (rr : RR) : Record :=
  let normalizedZone := trimSuffixGo zone "."
  let normalizedName := trimSuffixGo rr.name "."
  let zoneSuffix := "." ++ normalizedZone
  let name :=
    match cutSuffixGo normalizedName zoneSuffix with
    | (after, true) => after
    | (_, false) => rr.name
  let name :=
    if name = "" || name = "@" || name = zone || name = trimSuffixGo zone "." then "@"
    else name
  let data := if rr.type = "TXT" then trimCharGo rr.data '"' else rr.data
  let pd : Int × String :=
    if rr.type = "MX" then
      let parts := fieldsGo rr.data
      if 2 ≤ parts.length then (sscanfIntGo (parts.headD ""), joinSpaceGo (parts.drop 1))
      else (0, data)
    else if rr.type = "SRV" then
      let parts := fieldsGo rr.data
      if 4 ≤ parts.length then (sscanfIntGo (parts.headD ""), joinSpaceGo (parts.drop 1))
      else (0, data)
    else (0, data)
  { id := 0, name := name, type := rr.type, content := pd.2, ttl := rr.ttl, priority := pd.1 }

/-- `internalToLibdns` up to (but excluding) the final `rr.Parse()` call:
the RR handed to the libdns codec. -/
def internalToLibdnsRR (zone : String) (rec : Record) : RR :=
  let data := if rec.type = "TXT" then trimCharGo rec.content '"' else rec.content
  let data :=
    if rec.type = "MX" || rec.type = "SRV" then toString rec.priority ++ " " ++ rec.content
    else data
  let name :=
    if rec.type = "SRV" && (rec.name == "" || rec.name == "@") then "_service._tcp"
    else rec.name
  let normalizedZone := trimSuffixGo zone "."
  let name :=
    if name = "" || name = "@" then
      if !hasSuffixGo zone "." then zone ++ "." else zone
    else if hasSuffixGo name ("." ++ normalizedZone) ||
        hasSuffixGo name ("." ++ normalizedZone ++ ".") then
      trimSuffixGo name "." ++ "."
    else if name = normalizedZone || name = normalizedZone ++ "." then
      normalizedZone ++ "."
    else
      name ++ "." ++ normalizedZone ++ "."
  { name := name, type := rec.type, data := data, ttl := rec.ttl }

/-- One provider API mutation, as issued by the operations. -/
inductive Call where
  | create (r : Record)
  | update (id : Int) (r : Record)
  | delete (id : Int)
deriving DecidableEq

/-- Oracle for the external collaborators: the provider HTTP client's
mutating endpoints and the libdns codec `rr.Parse()`.  `none` models the
Go error return. -/
structure Client where
  createRecord : Record → Option Record
  updateRecord : Int → Record → Option Record
  deleteRecord : Int → Option Unit
  parse : RR → Option RR

/-- `AppendRecords` body: for each input, create then translate the
response; abort on the first failure.  Returns the issued calls and the
result (`none` = error). -/
def appendRecords (c : Client) (zone : String) (records : List RR) :
    List Call × Option (List RR) :=
  match records with
  | [] => ([], some [])
  | r :: rest =>
    let ir := libdnsToInternal zone r
    match c.createRecord ir with
    | none => ([Call.create ir], none)
    | some created =>
      match c.parse (internalToLibdnsRR zone created) with
      | none => ([Call.create ir], none)
      | some lr =>
        let (t, o) := appendRecords c zone rest
        (Call.create ir :: t, o.map (lr :: ·))

/-- The `(name, type)` grouping key of `SetRecords`. -/
def rkey (r : Record) : String × String := (r.name, r.type)

/-- The existing records matching a key, in provider order
(`existingForKey` in the source). -/
def keyFilter (existing : List Record) (k : String × String) : List Record :=
  existing.filter (fun e => e.name == k.1 && e.type == k.2)

/-- One `(name, type)` bucket of `inputByKey`, in input order. -/
def inputBucket (zone : String) (records : List RR) (k : String × String) : List Record :=
  (records.map (libdnsToInternal zone)).filter (fun r => rkey r == k)

/-- The input keys, with multiplicity, in input order. -/
def inputKeyList (zone : String) (records : List RR) : List (String × String) :=
  (records.map (libdnsToInternal zone)).map rkey

/-- The update/create loop of `SetRecords` for one key: `exRest` is the
suffix of `existingForKey` from the current index on. -/
def setInputsLoop (c : Client) (zone : String) :
    List Record → List Record → List Call × Option (List RR)
  | _, [] => ([], some [])
  | e :: es, r :: rest =>
    match c.updateRecord e.id r with
    | none => ([Call.update e.id r], none)
    | some res =>
      match c.parse (internalToLibdnsRR zone res) with
      | none => ([Call.update e.id r], none)
      | some lr =>
        let (t, o) := setInputsLoop c zone es rest
        (Call.update e.id r :: t, o.map (lr :: ·))
  | [], r :: rest =>
    match c.createRecord r with
    | none => ([Call.create r], none)
    | some res =>
      match c.parse (internalToLibdnsRR zone res) with
      | none => ([Call.create r], none)
      | some lr =>
        let (t, o) := setInputsLoop c zone [] rest
        (Call.create r :: t, o.map (lr :: ·))

/-- The surplus-deletion loop of `SetRecords` for one key: `rest` is
`existingForKey` from index `len(inputRecs)` on. -/
def setDeletesLoop (c : Client) : List Record → List Call × Bool
  | [] => ([], true)
  | e :: es =>
    match c.deleteRecord e.id with
    | none => ([Call.delete e.id], false)
    | some _ =>
      let (t, b) := setDeletesLoop c es
      (Call.delete e.id :: t, b)

/-- `SetRecords` body for a single `(name, type)` key. -/
def processKey (c : Client) (zone : String) (existing : List Record)
    (k : String × String) (inputRecs : List Record) : List Call × Option (List RR) :=
  let ex := keyFilter existing k
  match setInputsLoop c zone ex inputRecs with
  | (t, none) => (t, none)
  | (t, some lrs) =>
    let (t2, ok) := setDeletesLoop c (ex.drop inputRecs.length)
    (t ++ t2, if ok then some lrs else none)

/-- `SetRecords` body: process each key of the input grouping.  The Go
`map` iteration order is unspecified, so the key enumeration `keys` is a
parameter; theorems require it to be a duplicate-free enumeration of
`inputKeyList`. -/
def setRecords (c : Client) (zone : String) (existing : List Record)
    (records : List RR) : List (String × String) → List Call × Option (List RR)
  | [] => ([], some [])
  | k :: ks =>
    match processKey c zone existing k (inputBucket zone records k) with
    | (t, none) => (t, none)
    | (t, some lrs) =>
      let (t2, o) := setRecords c zone existing records ks
      (t ++ t2, o.map (lrs ++ ·))

/-- The content-match scan of `DeleteRecords` for one input record:
delete every existing record equal on name, type and content; also
report whether any match was found. -/
def deleteScan (c : Client) (zone : String) (ir : Record) :
    List Record → List Call × Option (List RR × Bool)
  | [] => ([], some ([], false))
  | e :: es =>
    if e.name == ir.name && e.type == ir.type && e.content == ir.content then
      match c.deleteRecord e.id with
      | none => ([Call.delete e.id], none)
      | some _ =>
        match c.parse (internalToLibdnsRR zone e) with
        | none => ([Call.delete e.id], none)
        | some lr =>
          let (t, o) := deleteScan c zone ir es
          (Call.delete e.id :: t, o.map (fun p => (lr :: p.1, true)))
    else deleteScan c zone ir es

/-- The `(name, type)`-only fallback of `DeleteRecords`: delete the first
match, if any. -/
def deleteFallback (c : Client) (zone : String) (ir : Record) :
    List Record → List Call × Option (List RR)
  | [] => ([], some [])
  | e :: es =>
    if e.name == ir.name && e.type == ir.type then
      match c.deleteRecord e.id with
      | none => ([Call.delete e.id], none)
      | some _ =>
        match c.parse (internalToLibdnsRR zone e) with
        | none => ([Call.delete e.id], none)
        | some lr => ([Call.delete e.id], some [lr])
    else deleteFallback c zone ir es

/-- `DeleteRecords` body for one input record. -/
def deleteOne (c : Client) (zone : String) (existing : List Record) (ir : Record) :
    List Call × Option (List RR) :=
  match deleteScan c zone ir existing with
  | (t, none) => (t, none)
  | (t, some (lrs, found)) =>
    if found then (t, some lrs)
    else
      let (t2, o2) := deleteFallback c zone ir existing
      (t ++ t2, o2.map (lrs ++ ·))

/-- `DeleteRecords` body. -/
def deleteRecords (c : Client) (zone : String) (existing : List Record) :
    List RR → List Call × Option (List RR)
  | [] => ([], some [])
  | r :: rest =>
    match deleteOne c zone existing (libdnsToInternal zone r) with
    | (t, none) => (t, none)
    | (t, some lrs) =>
      let (t2, o) := deleteRecords c zone existing rest
      (t ++ t2, o.map (lrs ++ ·))

/-- The translation loop of `GetRecords`: records the codec rejects are
skipped. -/
def getRecordsLoop (c : Client) (zone : String) : List Record → List RR
  | [] => []
  | r :: rest =>
    match c.parse (internalToLibdnsRR zone r) with
    | none => getRecordsLoop c zone rest
    | some lr => lr :: getRecordsLoop c zone rest

/-- `GetRecords` body: resolve the zone (`none` = the zone-not-found
error), fetch its records (`recsOf`), translate each, skipping failures. -/
def getRecords (c : Client) (zones : List Zone) (recsOf : Int → List Record)
    (zone : String) : Option (List RR) :=
  match getZoneID zones zone with
  | none => none
  | some zid => some (getRecordsLoop c zone (recsOf zid))

/-- Specification shape of the per-key update phase: pair `desired[i]`
with `existing[i]` for `i < min`, reusing `existing[i].id`. -/
def updateCalls (ex d : List Record) : List Call :=
  List.zipWith (fun e r => Call.update e.id r) ex d

/-- Specification shape of the update/create phase for one key: updates
for the paired indices, then creates for surplus desired records. -/
def inputsFullCalls (ex d : List Record) : List Call :=
  updateCalls ex d ++ (d.drop ex.length).map Call.create

/-- Specification shape of all calls `SetRecords` issues for one key:
updates for the paired indices, creates for surplus desired records,
deletes for surplus existing records. -/
def keyFullCalls (ex d : List Record) : List Call :=
  inputsFullCalls ex d ++ (ex.drop d.length).map (fun e => Call.delete e.id)

/-- All calls `SetRecords` issues when nothing fails, keys in `keys`
order. -/
def setFullCalls (zone : String) (existing : List Record) (records : List RR)
    (keys : List (String × String)) : List Call :=
  (keys.map (fun k => keyFullCalls (keyFilter existing k) (inputBucket zone records k))).flatten

/-- All calls `AppendRecords` issues when nothing fails. -/
def appendFullCalls (zone : String) (records : List RR) : List Call :=
  records.map (fun r => Call.create (libdnsToInternal zone r))

/-- Whether a call (including the translation of its response, for
creates and updates) succeeds against the oracle. -/
def callOK (c : Client) (zone : String) : Call → Bool
  | Call.create r =>
    match c.createRecord r with
    | none => false
    | some res => (c.parse (internalToLibdnsRR zone res)).isSome
  | Call.update i r =>
    match c.updateRecord i r with
    | none => false
    | some res => (c.parse (internalToLibdnsRR zone res)).isSome
  | Call.delete i => (c.deleteRecord i).isSome

/-- The canonical record a successful create/update contributes to the
returned list (deletes contribute nothing). -/
def callResult (c : Client) (zone : String) : Call → Option RR
  | Call.create r => (c.createRecord r).bind (fun res => c.parse (internalToLibdnsRR zone res))
  | Call.update i r => (c.updateRecord i r).bind (fun res => c.parse (internalToLibdnsRR zone res))
  | Call.delete _ => none

/-- Issue a planned call sequence until the first failure: the issued
calls (the failing one included) and whether all succeeded. -/
def runCalls (c : Client) (zone : String) : List Call → List Call × Bool
  | [] => ([], true)
  | x :: xs =>
    if callOK c zone x then (x :: (runCalls c zone xs).1, (runCalls c zone xs).2)
    else ([x], false)

/-- Specification shape of what `DeleteRecords` deletes for one
translated input record: every exact `(name, type, content)` match, or
else the first `(name, type)` match. -/
def expectedDeleted (existing : List Record) (ir : Record) : List Record :=
  let ms := existing.filter (fun e => e.name == ir.name && e.type == ir.type && e.content == ir.content)
  if ms.isEmpty then (existing.find? (fun e => e.name == ir.name && e.type == ir.type)).toList
  else ms

/-- A fully successful oracle used by witnesses: creates get id 1000,
updates keep the requested id, the codec accepts every record
unchanged. -/
def okClient : Client where
  createRecord := fun r => some { r with id := 1000 }
  updateRecord := fun i r => some { r with id := i }
  deleteRecord := fun _ => some ()
  parse := fun rr => some rr

/-- An oracle whose update endpoint always fails; other calls succeed. -/
def updateFailClient : Client :=
  { okClient with updateRecord := fun _ _ => none }

/-- An oracle whose create endpoint fails for records named `"b"`. -/
def createBFailClient : Client :=
  { okClient with createRecord := fun r => if r.name == "b" then none else some { r with id := 1000 } }

/-- An oracle whose codec rejects TXT records; everything else
succeeds. -/
def txtRejectClient : Client :=
  { okClient with parse := fun rr => if rr.type == "TXT" then none else some rr }

/-! ### Helper lemmas about planned call sequences -/

theorem runCalls_true (c : Client) (zone : String) :
    ∀ l : List Call, (runCalls c zone l).2 = true → (runCalls c zone l).1 = l := by
  intro l
  induction l with
  | nil => intro _; rfl
  | cons x xs ih =>
    intro h
    by_cases hx : callOK c zone x = true
    · simp only [runCalls, hx, if_true] at h ⊢
      exact congrArg (x :: ·) (ih h)
    · simp only [runCalls, if_neg hx] at h
      exact absurd h (by simp)

theorem runCalls_all_ok (c : Client) (zone : String) :
    ∀ l : List Call, (∀ x ∈ l, callOK c zone x = true) → runCalls c zone l = (l, true) := by
  intro l
  induction l with
  | nil => intro _; rfl
  | cons x xs ih =>
    intro h
    have hx := h x (List.mem_cons_self x xs)
    have hr := ih (fun y hy => h y (List.mem_cons_of_mem x hy))
    simp only [runCalls, hx, if_true, hr]

theorem runCalls_mem (c : Client) (zone : String) :
    ∀ l : List Call, ∀ x ∈ (runCalls c zone l).1, x ∈ l := by
  intro l
  induction l with
  | nil => intro x hx; exact absurd hx (by simp [runCalls])
  | cons y ys ih =>
    intro x hx
    by_cases hy : callOK c zone y = true
    · simp only [runCalls, hy, if_true, List.mem_cons] at hx
      rcases hx with h | h
      · exact h ▸ List.mem_cons_self y ys
      · exact List.mem_cons_of_mem y (ih x h)
    · simp only [runCalls, if_neg hy, List.mem_singleton] at hx
      exact hx ▸ List.mem_cons_self y ys

theorem runCalls_append (c : Client) (zone : String) :
    ∀ A B : List Call,
      runCalls c zone (A ++ B) =
        (if (runCalls c zone A).2 then
          ((runCalls c zone A).1 ++ (runCalls c zone B).1, (runCalls c zone B).2)
        else runCalls c zone A) := by
  intro A B
  induction A with
  | nil => simp [runCalls]
  | cons x xs ih =>
    have h1 : runCalls c zone ((x :: xs) ++ B) =
        if callOK c zone x = true then
          (x :: (runCalls c zone (xs ++ B)).1, (runCalls c zone (xs ++ B)).2)
        else ([x], false) := rfl
    have h2 : runCalls c zone (x :: xs) =
        if callOK c zone x = true then
          (x :: (runCalls c zone xs).1, (runCalls c zone xs).2)
        else ([x], false) := rfl
    rw [h1, h2, ih]
    by_cases hx : callOK c zone x = true <;>
      by_cases hb : (runCalls c zone xs).2 = true <;>
      simp [hx, hb]

theorem runCalls_first_fail (c : Client) (zone : String) :
    ∀ (l : List Call) (j : Nat) (hj : j < l.length),
      (∀ i (hi : i < j), callOK c zone (l.get ⟨i, hi.trans hj⟩) = true) →
      callOK c zone (l.get ⟨j, hj⟩) = false →
      runCalls c zone l = (l.take (j + 1), false) := by
  intro l
  induction l with
  | nil => intro j hj; exact absurd hj (by simp)
  | cons x xs ih =>
    intro j hj hpre hfail
    cases j with
    | zero =>
      simp only [List.get] at hfail
      simp [runCalls, hfail]
    | succ j =>
      have hx : callOK c zone x = true := hpre 0 (Nat.succ_pos j)
      have hj' : j < xs.length := Nat.lt_of_succ_lt_succ hj
      have hpre' : ∀ i (hi : i < j), callOK c zone (xs.get ⟨i, hi.trans hj'⟩) = true :=
        fun i hi => hpre (i + 1) (Nat.succ_lt_succ hi)
      have hfail' : callOK c zone (xs.get ⟨j, hj'⟩) = false := hfail
      simp [runCalls, hx, ih j hj' hpre' hfail']

/-- `AppendRecords` issues exactly the planned create calls up to the
first failure; on success the returned records are the translated call
responses. -/
theorem appendRecords_eq_run (c : Client) (zone : String) :
    ∀ records : List RR,
      appendRecords c zone records =
        ((runCalls c zone (appendFullCalls zone records)).1,
         if (runCalls c zone (appendFullCalls zone records)).2 then
           some (((runCalls c zone (appendFullCalls zone records)).1).filterMap (callResult c zone))
         else none) := by
  intro records
  induction records with
  | nil => simp [appendRecords, appendFullCalls, runCalls]
  | cons r rest ih =>
    cases hc : c.createRecord (libdnsToInternal zone r) with
    | none =>
      simp [appendRecords, appendFullCalls, runCalls, callOK, hc]
    | some created =>
      cases hp : c.parse (internalToLibdnsRR zone created) with
      | none =>
        simp [appendRecords, appendFullCalls, runCalls, callOK, hc, hp]
      | some lr =>
        by_cases hB : (runCalls c zone (appendFullCalls zone rest)).2 = true <;>
          simp [appendRecords, appendFullCalls, runCalls, callOK, callResult, hc, hp, ih, hB]

/-- The update/create phase of `SetRecords` for one key issues exactly
the planned update-then-create calls up to the first failure; on success
the returned records are the translated call responses. -/
theorem setInputsLoop_eq_run (c : Client) (zone : String) :
    ∀ (d ex : List Record),
      setInputsLoop c zone ex d =
        ((runCalls c zone (inputsFullCalls ex d)).1,
         if (runCalls c zone (inputsFullCalls ex d)).2 then
           some (((runCalls c zone (inputsFullCalls ex d)).1).filterMap (callResult c zone))
         else none) := by
  intro d
  induction d with
  | nil =>
    intro ex
    simp [setInputsLoop, inputsFullCalls, updateCalls, runCalls]
  | cons r rest ih =>
    intro ex
    cases ex with
    | nil =>
      cases hc : c.createRecord r with
      | none =>
        simp [setInputsLoop, inputsFullCalls, updateCalls, runCalls, callOK, hc]
      | some res =>
        cases hp : c.parse (internalToLibdnsRR zone res) with
        | none =>
          simp [setInputsLoop, inputsFullCalls, updateCalls, runCalls, callOK, hc, hp]
        | some lr =>
          by_cases hB : (runCalls c zone (inputsFullCalls [] rest)).2 = true <;>
            simp [setInputsLoop, inputsFullCalls, updateCalls, runCalls, callOK, callResult,
              hc, hp, ih, hB]
    | cons e es =>
      cases hc : c.updateRecord e.id r with
      | none =>
        simp [setInputsLoop, inputsFullCalls, updateCalls, runCalls, callOK, hc]
      | some res =>
        cases hp : c.parse (internalToLibdnsRR zone res) with
        | none =>
          simp [setInputsLoop, inputsFullCalls, updateCalls, runCalls, callOK, hc, hp]
        | some lr =>
          by_cases hB : (runCalls c zone (inputsFullCalls es rest)).2 = true <;>
            simp [setInputsLoop, inputsFullCalls, updateCalls, runCalls, callOK, callResult,
              hc, hp, ih, hB]

/-- The surplus-deletion phase of `SetRecords` issues exactly the planned
delete calls up to the first failure. -/
theorem setDeletesLoop_eq_run (c : Client) (zone : String) :
    ∀ rest : List Record,
      setDeletesLoop c rest = runCalls c zone (rest.map (fun e => Call.delete e.id)) := by
  intro rest
  induction rest with
  | nil => simp [setDeletesLoop, runCalls]
  | cons e es ih =>
    cases hd : c.deleteRecord e.id with
    | none => simp [setDeletesLoop, runCalls, callOK, hd]
    | some u => simp [setDeletesLoop, runCalls, callOK, hd, ih]

/-- Issued delete calls never contribute to a returned record list. -/
theorem filterMap_callResult_deletes (c : Client) (zone : String) (es : List Record)
    (t : List Call) (ht : ∀ x ∈ t, x ∈ es.map (fun e => Call.delete e.id)) :
    t.filterMap (callResult c zone) = [] := by
  refine List.filterMap_eq_nil_iff.mpr ?_
  intro a ha
  rcases List.mem_map.mp (ht a ha) with ⟨e, _, rfl⟩
  rfl

/-- `SetRecords` for a single key issues exactly the planned
update/create/delete calls up to the first failure; on success the
returned records are the translated update/create responses. -/
theorem processKey_eq_run (c : Client) (zone : String) (existing : List Record)
    (k : String × String) (d : List Record) :
    processKey c zone existing k d =
      ((runCalls c zone (keyFullCalls (keyFilter existing k) d)).1,
       if (runCalls c zone (keyFullCalls (keyFilter existing k) d)).2 then
         some (((runCalls c zone (keyFullCalls (keyFilter existing k) d)).1).filterMap
           (callResult c zone))
       else none) := by
  have hA := setInputsLoop_eq_run c zone d (keyFilter existing k)
  have hDel := setDeletesLoop_eq_run c zone ((keyFilter existing k).drop d.length)
  have hApp := runCalls_append c zone (inputsFullCalls (keyFilter existing k) d)
    (((keyFilter existing k).drop d.length).map (fun e => Call.delete e.id))
  cases h1 : (runCalls c zone (inputsFullCalls (keyFilter existing k) d)).2 with
  | false =>
    simp only [processKey, keyFullCalls, hA, hApp, h1, Bool.false_eq_true, if_false]
  | true =>
    cases h2 : (runCalls c zone
        (((keyFilter existing k).drop d.length).map (fun e => Call.delete e.id))).2 with
    | false =>
      simp only [processKey, keyFullCalls, hA, hDel, hApp, h1, h2, Bool.false_eq_true,
        if_false, eq_self_iff_true, if_true]
    | true =>
      have hnil := filterMap_callResult_deletes c zone ((keyFilter existing k).drop d.length)
        _ (runCalls_mem c zone _)
      simp only [processKey, keyFullCalls, hA, hDel, hApp, h1, h2, eq_self_iff_true, if_true,
        List.filterMap_append, hnil, List.append_nil, runCalls_true c zone _ h1]

/-- `SetRecords` issues exactly the planned per-key call sequences, in
key order, up to the first failure; on success the returned records are
the translated update/create responses, in call order. -/
theorem setRecords_eq_run (c : Client) (zone : String) (existing : List Record)
    (records : List RR) :
    ∀ keys : List (String × String),
      setRecords c zone existing records keys =
        ((runCalls c zone (setFullCalls zone existing records keys)).1,
         if (runCalls c zone (setFullCalls zone existing records keys)).2 then
           some (((runCalls c zone (setFullCalls zone existing records keys)).1).filterMap
             (callResult c zone))
         else none) := by
  intro keys
  induction keys with
  | nil => simp [setRecords, setFullCalls, runCalls]
  | cons k ks ih =>
    have hPK := processKey_eq_run c zone existing k (inputBucket zone records k)
    have hApp := runCalls_append c zone
      (keyFullCalls (keyFilter existing k) (inputBucket zone records k))
      (setFullCalls zone existing records ks)
    have hSplit : setFullCalls zone existing records (k :: ks) =
        keyFullCalls (keyFilter existing k) (inputBucket zone records k) ++
          setFullCalls zone existing records ks := by
      simp [setFullCalls]
    cases h1 : (runCalls c zone
        (keyFullCalls (keyFilter existing k) (inputBucket zone records k))).2 with
    | false =>
      simp only [setRecords, hSplit, hPK, hApp, h1, Bool.false_eq_true, if_false]
    | true =>
      cases h2 : (runCalls c zone (setFullCalls zone existing records ks)).2 with
      | false =>
        simp only [setRecords, hSplit, hPK, ih, hApp, h1, h2, Bool.false_eq_true, if_false,
          eq_self_iff_true, if_true, Option.map_none']
      | true =>
        simp only [setRecords, hSplit, hPK, ih, hApp, h1, h2, eq_self_iff_true, if_true,
          List.filterMap_append, Option.map_some', runCalls_true c zone _ h1,
          runCalls_true c zone _ h2]

/-! ### Claim theorems -/

/-- C1: for every `(name, type)` key present in the input of `SetRecords`
(`keys` being the input-key enumeration the Go map iterates), with
`desired` the input bucket in input order (`inputBucket`) and `existing`
the current provider records with that key in provider order
(`keyFilter`): an update call reusing `existing[i].id` is issued for each
paired index `i < min` (`updateCalls` is the index-wise `zipWith`), a
create call for each surplus desired index, and a delete call for each
surplus existing index; the returned list holds the translated responses
of the update and create calls. -/
theorem setRecords_pairing (c : Client) (zone : String) (existing : List Record)
    (records : List RR) (keys : List (String × String))
    (_hcover : ∀ k ∈ inputKeyList zone records, k ∈ keys)
    (_hsound : ∀ k ∈ keys, k ∈ inputKeyList zone records)
    (_hnd : keys.Nodup)
    (hok : ∀ x ∈ setFullCalls zone existing records keys, callOK c zone x = true) :
    (setRecords c zone existing records keys).1 =
      (keys.map (fun k =>
        updateCalls (keyFilter existing k) (inputBucket zone records k) ++
        ((inputBucket zone records k).drop (keyFilter existing k).length).map Call.create ++
        ((keyFilter existing k).drop (inputBucket zone records k).length).map
          (fun e => Call.delete e.id))).flatten ∧
    (setRecords c zone existing records keys).2 =
      some ((setFullCalls zone existing records keys).filterMap (callResult c zone)) := by
  have hrun := runCalls_all_ok c zone _ hok
  have h := setRecords_eq_run c zone existing records keys
  rw [hrun] at h
  refine ⟨?_, ?_⟩
  · have h1 := congrArg Prod.fst h
    simp only at h1
    rw [h1]
    simp [setFullCalls, keyFullCalls, inputsFullCalls]
  · have h2 := congrArg Prod.snd h
    simp only at h2
    rw [h2]
    simp

/-- Witness for C1 at the two scenarios named by the claim: one input
record against two existing records with its key (update the first in
place, delete the second, one record returned), and three input records
against one existing record (one update, two creates, no deletes, three
records returned). -/
theorem setRecords_pairing_witness :
    ((setRecords okClient "example.com."
        [{ id := 10, name := "www", type := "A", content := "192.0.2.5", ttl := 3600 },
         { id := 11, name := "www", type := "A", content := "192.0.2.6", ttl := 3600 }]
        [⟨"www", "A", "192.0.2.1", 3600⟩] [("www", "A")]).1 =
      [Call.update 10 ⟨0, "www", "A", "192.0.2.1", 3600, 0⟩, Call.delete 11] ∧
     (setRecords okClient "example.com."
        [{ id := 10, name := "www", type := "A", content := "192.0.2.5", ttl := 3600 },
         { id := 11, name := "www", type := "A", content := "192.0.2.6", ttl := 3600 }]
        [⟨"www", "A", "192.0.2.1", 3600⟩] [("www", "A")]).2 =
      some [⟨"www.example.com.", "A", "192.0.2.1", 3600⟩]) ∧
    ((setRecords okClient "example.com."
        [{ id := 20, name := "a", type := "TXT", content := "old", ttl := 300 }]
        [⟨"a", "TXT", "t1", 300⟩, ⟨"a", "TXT", "t2", 300⟩, ⟨"a", "TXT", "t3", 300⟩]
        [("a", "TXT")]).1 =
      [Call.update 20 ⟨0, "a", "TXT", "t1", 300, 0⟩,
       Call.create ⟨0, "a", "TXT", "t2", 300, 0⟩,
       Call.create ⟨0, "a", "TXT", "t3", 300, 0⟩] ∧
     (setRecords okClient "example.com."
        [{ id := 20, name := "a", type := "TXT", content := "old", ttl := 300 }]
        [⟨"a", "TXT", "t1", 300⟩, ⟨"a", "TXT", "t2", 300⟩, ⟨"a", "TXT", "t3", 300⟩]
        [("a", "TXT")]).2 =
      some [⟨"a.example.com.", "TXT", "t1", 300⟩, ⟨"a.example.com.", "TXT", "t2", 300⟩,
        ⟨"a.example.com.", "TXT", "t3", 300⟩]) := by
  have h1 := setRecords_pairing okClient "example.com."
    [{ id := 10, name := "www", type := "A", content := "192.0.2.5", ttl := 3600 },
     { id := 11, name := "www", type := "A", content := "192.0.2.6", ttl := 3600 }]
    [⟨"www", "A", "192.0.2.1", 3600⟩] [("www", "A")]
    (by decide) (by decide) (by decide) (by decide)
  have h2 := setRecords_pairing okClient "example.com."
    [{ id := 20, name := "a", type := "TXT", content := "old", ttl := 300 }]
    [⟨"a", "TXT", "t1", 300⟩, ⟨"a", "TXT", "t2", 300⟩, ⟨"a", "TXT", "t3", 300⟩]
    [("a", "TXT")]
    (by decide) (by decide) (by decide) (by decide)
  exact ⟨⟨h1.1.trans (by decide), h1.2.trans (by decide)⟩,
    ⟨h2.1.trans (by decide), h2.2.trans (by decide)⟩⟩

/-- Every planned update call for a key targets the id of one of that
key's existing records. -/
theorem mem_updateCalls {x : Call} :
    ∀ (ex d : List Record), x ∈ updateCalls ex d → ∃ e ∈ ex, ∃ r, x = Call.update e.id r := by
  intro ex
  induction ex with
  | nil => intro d hx; simp [updateCalls] at hx
  | cons e es ih =>
    intro d hx
    cases d with
    | nil => simp [updateCalls] at hx
    | cons r rs =>
      rw [updateCalls, List.zipWith_cons_cons] at hx
      rcases List.mem_cons.mp hx with h | h
      · exact ⟨e, List.mem_cons_self e es, r, h⟩
      · rcases ih rs h with ⟨e2, he2, r2, hr2⟩
        exact ⟨e2, List.mem_cons_of_mem e he2, r2, hr2⟩

/-- A record of `keyFilter existing k` is an existing record whose
`(name, type)` key is `k`. -/
theorem mem_keyFilter {existing : List Record} {k : String × String} {e : Record}
    (he : e ∈ keyFilter existing k) : e ∈ existing ∧ rkey e = k := by
  rcases List.mem_filter.mp he with ⟨hmem, hcond⟩
  simp only [Bool.and_eq_true, beq_iff_eq] at hcond
  exact ⟨hmem, by simp [rkey, hcond.1, hcond.2]⟩

/-- In a list with duplicate-free ids, records with equal id are equal. -/
theorem eq_of_mem_of_id_eq {l : List Record} (h : (l.map Record.id).Nodup) :
    ∀ e ∈ l, ∀ e2 ∈ l, e.id = e2.id → e = e2 := by
  induction l with
  | nil => intro e he; simp at he
  | cons a as ih =>
    intro e he e2 he2 hid2
    have h' := h
    simp only [List.map_cons, List.nodup_cons] at h'
    obtain ⟨hna, has⟩ := h'
    cases List.mem_cons.mp he with
    | inl h1 =>
      cases List.mem_cons.mp he2 with
      | inl h2 => rw [h1, h2]
      | inr h2 =>
        subst h1
        have : e.id ∈ as.map Record.id := by
          rw [hid2]; exact List.mem_map_of_mem Record.id h2
        exact absurd this hna
    | inr h1 =>
      cases List.mem_cons.mp he2 with
      | inl h2 =>
        subst h2
        have : e2.id ∈ as.map Record.id := by
          rw [← hid2]; exact List.mem_map_of_mem Record.id h1
        exact absurd this hna
      | inr h2 => exact ih has e h1 e2 h2 hid2

/-- Every call in a planned per-key sequence that targets an existing id
(update or delete) targets a record whose key is `k`. -/
theorem keyFullCalls_targets {existing : List Record} {k : String × String} {x : Call}
    {d : List Record} (hx : x ∈ keyFullCalls (keyFilter existing k) d) :
    (∀ i r, x = Call.update i r → ∃ e ∈ existing, e.id = i ∧ rkey e = k) ∧
    (∀ i, x = Call.delete i → ∃ e ∈ existing, e.id = i ∧ rkey e = k) := by
  rw [keyFullCalls, inputsFullCalls] at hx
  rcases List.mem_append.mp hx with hx | hx
  · rcases List.mem_append.mp hx with hx | hx
    · rcases mem_updateCalls _ _ hx with ⟨e, he, r, rfl⟩
      rcases mem_keyFilter he with ⟨hmem, hk⟩
      constructor
      · intro i r2 hir
        cases hir
        exact ⟨e, hmem, rfl, hk⟩
      · intro i hir; cases hir
    · rcases List.mem_map.mp hx with ⟨r, _, rfl⟩
      exact ⟨(fun i r2 h => nomatch h), (fun i h => nomatch h)⟩
  · rcases List.mem_map.mp hx with ⟨e, he, rfl⟩
    rcases mem_keyFilter (List.mem_of_mem_drop he) with ⟨hmem, hk⟩
    constructor
    · intro i r2 hir; cases hir
    · intro i hir
      cases hir
      exact ⟨e, hmem, rfl, hk⟩

/-- C5: `SetRecords` issues no update and no delete call for an existing
record whose `(name, type)` key is absent from the input (ids are assumed
unique across the fetched records, as provider-assigned identities
are). -/
theorem setRecords_frame (c : Client) (zone : String) (existing : List Record)
    (records : List RR) (keys : List (String × String))
    (hsound : ∀ k ∈ keys, k ∈ inputKeyList zone records)
    (hid : (existing.map Record.id).Nodup)
    (e : Record) (he : e ∈ existing)
    (habsent : rkey e ∉ inputKeyList zone records) :
    (∀ r, Call.update e.id r ∉ (setRecords c zone existing records keys).1) ∧
    Call.delete e.id ∉ (setRecords c zone existing records keys).1 := by
  have htr : ∀ x ∈ (setRecords c zone existing records keys).1,
      x ∈ setFullCalls zone existing records keys := by
    intro x hx
    have h := setRecords_eq_run c zone existing records keys
    have h1 := congrArg Prod.fst h
    simp only at h1
    exact runCalls_mem c zone _ x (h1 ▸ hx)
  have hkeyed : ∀ x ∈ setFullCalls zone existing records keys,
      (∀ i r, x = Call.update i r → ∃ e2 ∈ existing, e2.id = i ∧ rkey e2 ∈ keys) ∧
      (∀ i, x = Call.delete i → ∃ e2 ∈ existing, e2.id = i ∧ rkey e2 ∈ keys) := by
    intro x hx
    rw [setFullCalls] at hx
    rcases List.mem_flatten.mp hx with ⟨l, hl, hxl⟩
    rcases List.mem_map.mp hl with ⟨k, hk, rfl⟩
    rcases keyFullCalls_targets hxl with ⟨hu, hd⟩
    exact ⟨fun i r hir => by rcases hu i r hir with ⟨e2, h1, h2, h3⟩; exact ⟨e2, h1, h2, h3 ▸ hk⟩,
      fun i hir => by rcases hd i hir with ⟨e2, h1, h2, h3⟩; exact ⟨e2, h1, h2, h3 ▸ hk⟩⟩
  constructor
  · intro r hmem
    rcases (hkeyed _ (htr _ hmem)).1 e.id r rfl with ⟨e2, he2, hide, hkey⟩
    have : e2 = e := eq_of_mem_of_id_eq hid e2 he2 e he hide
    exact habsent (hsound _ (this ▸ hkey))
  · intro hmem
    rcases (hkeyed _ (htr _ hmem)).2 e.id rfl with ⟨e2, he2, hide, hkey⟩
    have : e2 = e := eq_of_mem_of_id_eq hid e2 he2 e he hide
    exact habsent (hsound _ (this ▸ hkey))

/-- Witness for C5: an existing `mail`/`A` record is untouched by a
`SetRecords` call whose input only holds `www`/`A` records. -/
theorem setRecords_frame_witness :
    (∀ r, Call.update 55 r ∉ (setRecords okClient "example.com."
        [{ id := 10, name := "www", type := "A", content := "192.0.2.5", ttl := 3600 },
         { id := 55, name := "mail", type := "A", content := "192.0.2.9", ttl := 3600 }]
        [⟨"www", "A", "192.0.2.1", 3600⟩] [("www", "A")]).1) ∧
    Call.delete 55 ∉ (setRecords okClient "example.com."
        [{ id := 10, name := "www", type := "A", content := "192.0.2.5", ttl := 3600 },
         { id := 55, name := "mail", type := "A", content := "192.0.2.9", ttl := 3600 }]
        [⟨"www", "A", "192.0.2.1", 3600⟩] [("www", "A")]).1 := by
  exact setRecords_frame okClient "example.com."
    [{ id := 10, name := "www", type := "A", content := "192.0.2.5", ttl := 3600 },
     { id := 55, name := "mail", type := "A", content := "192.0.2.9", ttl := 3600 }]
    [⟨"www", "A", "192.0.2.1", 3600⟩] [("www", "A")]
    (by decide) (by decide)
    { id := 55, name := "mail", type := "A", content := "192.0.2.9", ttl := 3600 }
    (by decide) (by decide)

/-- C8: in `AppendRecords` and `SetRecords`, if the planned calls before
index `j` all succeed and the `j`-th fails (the failure of a create or
update covers the translation of its response), then the operation issues
exactly the planned calls up to and including the failing one — aborting
immediately, with an error result and no compensating calls for the
operations already applied. -/
theorem append_set_abort (c : Client) (zone : String) (records : List RR)
    (existing : List Record) (keys : List (String × String)) :
    (∀ j (hj : j < (appendFullCalls zone records).length),
      (∀ i (hi : i < j),
        callOK c zone ((appendFullCalls zone records).get ⟨i, hi.trans hj⟩) = true) →
      callOK c zone ((appendFullCalls zone records).get ⟨j, hj⟩) = false →
      appendRecords c zone records = ((appendFullCalls zone records).take (j + 1), none)) ∧
    (∀ j (hj : j < (setFullCalls zone existing records keys).length),
      (∀ i (hi : i < j),
        callOK c zone ((setFullCalls zone existing records keys).get ⟨i, hi.trans hj⟩) = true) →
      callOK c zone ((setFullCalls zone existing records keys).get ⟨j, hj⟩) = false →
      setRecords c zone existing records keys =
        ((setFullCalls zone existing records keys).take (j + 1), none)) := by
  constructor
  · intro j hj hpre hfail
    have hr := runCalls_first_fail c zone _ j hj hpre hfail
    have h := appendRecords_eq_run c zone records
    rw [hr] at h
    simpa using h
  · intro j hj hpre hfail
    have hr := runCalls_first_fail c zone _ j hj hpre hfail
    have h := setRecords_eq_run c zone existing records keys
    rw [hr] at h
    simpa using h

/-- Witness for C8: a create failure on the second of three appends stops
after the two creates with an error, and an update failure on the first
planned `SetRecords` call stops after that single call with an error. -/
theorem append_set_abort_witness :
    appendRecords createBFailClient "example.com."
        [⟨"a", "A", "192.0.2.1", 300⟩, ⟨"b", "A", "192.0.2.2", 300⟩,
         ⟨"c", "A", "192.0.2.3", 300⟩] =
      ([Call.create ⟨0, "a", "A", "192.0.2.1", 300, 0⟩,
        Call.create ⟨0, "b", "A", "192.0.2.2", 300, 0⟩], none) ∧
    setRecords updateFailClient "example.com."
        [{ id := 10, name := "www", type := "A", content := "192.0.2.5", ttl := 3600 }]
        [⟨"www", "A", "192.0.2.9", 3600⟩] [("www", "A")] =
      ([Call.update 10 ⟨0, "www", "A", "192.0.2.9", 3600, 0⟩], none) := by
  have h := append_set_abort createBFailClient "example.com."
    [⟨"a", "A", "192.0.2.1", 300⟩, ⟨"b", "A", "192.0.2.2", 300⟩, ⟨"c", "A", "192.0.2.3", 300⟩]
    [] []
  have h2 := append_set_abort updateFailClient "example.com."
    [⟨"www", "A", "192.0.2.9", 3600⟩]
    [{ id := 10, name := "www", type := "A", content := "192.0.2.5", ttl := 3600 }]
    [("www", "A")]
  exact ⟨(h.1 1 (by decide) (by decide) (by decide)).trans (by decide),
    (h2.2 0 (by decide) (by decide) (by decide)).trans (by decide)⟩

/-- `filterMap` keeps every element whose image is defined. -/
theorem filterMap_length_all_isSome {α β : Type} (f : α → Option β) :
    ∀ l : List α, (∀ x ∈ l, (f x).isSome) → (l.filterMap f).length = l.length := by
  intro l
  induction l with
  | nil => intro _; rfl
  | cons x xs ih =>
    intro h
    rcases Option.isSome_iff_exists.mp (h x (List.mem_cons_self x xs)) with ⟨b, hb⟩
    rw [List.filterMap_cons, hb]
    simp [ih (fun y hy => h y (List.mem_cons_of_mem x hy))]

/-- A successful create or update call contributes a returned record. -/
theorem callResult_isSome_of_ok {c : Client} {zone : String} {x : Call}
    (hok : callOK c zone x = true)
    (hshape : (∃ i r, x = Call.update i r) ∨ ∃ r, x = Call.create r) :
    (callResult c zone x).isSome := by
  rcases hshape with ⟨i, r, rfl⟩ | ⟨r, rfl⟩
  · rw [callResult]
    cases hc : c.updateRecord i r with
    | none => rw [callOK, hc] at hok; exact absurd hok (by simp)
    | some res => rw [callOK, hc] at hok; simpa using hok
  · rw [callResult]
    cases hc : c.createRecord r with
    | none => rw [callOK, hc] at hok; exact absurd hok (by simp)
    | some res => rw [callOK, hc] at hok; simpa using hok

/-- Every planned update/create-phase call is an update or a create. -/
theorem mem_inputsFullCalls_shape {ex d : List Record} {x : Call}
    (hx : x ∈ inputsFullCalls ex d) :
    (∃ i r, x = Call.update i r) ∨ ∃ r, x = Call.create r := by
  rcases List.mem_append.mp hx with h | h
  · rcases mem_updateCalls _ _ h with ⟨e, _, r, rfl⟩
    exact Or.inl ⟨e.id, r, rfl⟩
  · rcases List.mem_map.mp h with ⟨r, _, rfl⟩
    exact Or.inr ⟨r, rfl⟩

/-- When every planned call for a key succeeds, the key contributes
exactly one returned record per desired record. -/
theorem keyResult_length (c : Client) (zone : String) (ex d : List Record)
    (hok : ∀ x ∈ keyFullCalls ex d, callOK c zone x = true) :
    ((keyFullCalls ex d).filterMap (callResult c zone)).length = d.length := by
  rw [keyFullCalls, List.filterMap_append]
  rw [filterMap_callResult_deletes c zone (ex.drop d.length) _ (fun x hx => hx)]
  rw [List.append_nil]
  rw [filterMap_length_all_isSome _ _ (fun x hx =>
    callResult_isSome_of_ok (hok x (List.mem_append_left _ hx)) (mem_inputsFullCalls_shape hx))]
  rw [inputsFullCalls, List.length_append, updateCalls, List.length_zipWith,
    List.length_map, List.length_drop]
  omega

/-- When every planned `SetRecords` call succeeds, the returned list has
one record per desired record, summed over the keys. -/
theorem setResult_length (c : Client) (zone : String) (existing : List Record)
    (records : List RR) :
    ∀ keys : List (String × String),
      (∀ x ∈ setFullCalls zone existing records keys, callOK c zone x = true) →
      ((setFullCalls zone existing records keys).filterMap (callResult c zone)).length =
        (keys.map (fun k => (inputBucket zone records k).length)).sum := by
  intro keys
  induction keys with
  | nil => intro _; simp [setFullCalls]
  | cons k ks ih =>
    intro hok
    have hsplit : setFullCalls zone existing records (k :: ks) =
        keyFullCalls (keyFilter existing k) (inputBucket zone records k) ++
          setFullCalls zone existing records ks := by
      simp [setFullCalls]
    rw [hsplit] at hok
    rw [hsplit, List.filterMap_append, List.length_append]
    rw [keyResult_length c zone _ _ (fun x hx => hok x (List.mem_append_left _ hx))]
    rw [ih (fun x hx => hok x (List.mem_append_right _ hx))]
    simp

/-- Sums of pointwise sums of maps split. -/
theorem sum_map_add {κ : Type} (keys : List κ) (A B : κ → Nat) :
    (keys.map (fun k => A k + B k)).sum = (keys.map A).sum + (keys.map B).sum := by
  induction keys with
  | nil => rfl
  | cons k ks ih =>
    simp only [List.map_cons, List.sum_cons, ih]
    omega

/-- A duplicate-free key list containing `a` has indicator sum one. -/
theorem sum_indicator {κ : Type} [BEq κ] [LawfulBEq κ] (a : κ) :
    ∀ keys : List κ, keys.Nodup → a ∈ keys →
      (keys.map (fun k => if a == k then (1 : Nat) else 0)).sum = 1 := by
  intro keys
  induction keys with
  | nil => intro _ h; simp at h
  | cons k ks ih =>
    intro hnd hmem
    rcases List.mem_cons.mp hmem with rfl | hmem2
    · have hnot : a ∉ ks := (List.nodup_cons.mp hnd).1
      have hz : (ks.map (fun k2 => if a == k2 then (1 : Nat) else 0)).sum = 0 := by
        apply List.sum_eq_zero
        intro y hy
        rcases List.mem_map.mp hy with ⟨k2, hk2, rfl⟩
        have hne : a ≠ k2 := fun h => hnot (h ▸ hk2)
        simp [hne]
      simp [hz]
    · have hne : a ≠ k := fun h => (List.nodup_cons.mp hnd).1 (h ▸ hmem2)
      simp [hne, ih (List.nodup_cons.mp hnd).2 hmem2]

/-- Filtering a list by each key of a duplicate-free enumeration of its
image partitions it. -/
theorem sum_filter_lengths {α κ : Type} [BEq κ] [LawfulBEq κ] (f : α → κ) :
    ∀ (l : List α) (keys : List κ), keys.Nodup → (∀ x ∈ l, f x ∈ keys) →
      (keys.map (fun k => (l.filter (fun x => f x == k)).length)).sum = l.length := by
  intro l
  induction l with
  | nil => intro keys _ _; simp
  | cons x xs ih =>
    intro keys hnd hmem
    have hx : f x ∈ keys := hmem x (List.mem_cons_self x xs)
    have hxs : ∀ y ∈ xs, f y ∈ keys := fun y hy => hmem y (List.mem_cons_of_mem x hy)
    have hsplit : ∀ k : κ, ((x :: xs).filter (fun y => f y == k)).length =
        (if f x == k then 1 else 0) + (xs.filter (fun y => f y == k)).length := by
      intro k
      by_cases h : (f x == k) = true
      · simp [List.filter_cons, h]
        omega
      · simp [List.filter_cons, h]
    simp only [hsplit]
    rw [sum_map_add keys (fun k => if f x == k then 1 else 0)
      (fun k => (xs.filter (fun y => f y == k)).length)]
    rw [sum_indicator (f x) keys hnd hx, ih keys hnd hxs, List.length_cons]
    omega

/-- The input buckets of the distinct input keys partition the input. -/
theorem sum_bucket_lengths (zone : String) (records : List RR)
    (keys : List (String × String)) (hnd : keys.Nodup)
    (hcover : ∀ k ∈ inputKeyList zone records, k ∈ keys) :
    (keys.map (fun k => (inputBucket zone records k).length)).sum = records.length := by
  have h := sum_filter_lengths rkey (records.map (libdnsToInternal zone)) keys hnd
    (fun x hx => hcover (rkey x) (List.mem_map_of_mem rkey hx))
  simpa [inputBucket] using h

/-- C10: on success, `AppendRecords` and `SetRecords` each return exactly
one canonical record per input record. -/
theorem append_set_result_length (c : Client) (zone : String) (existing : List Record)
    (records : List RR) (keys : List (String × String))
    (hcover : ∀ k ∈ inputKeyList zone records, k ∈ keys)
    (_hsound : ∀ k ∈ keys, k ∈ inputKeyList zone records)
    (hnd : keys.Nodup)
    (hokA : ∀ x ∈ appendFullCalls zone records, callOK c zone x = true)
    (hokS : ∀ x ∈ setFullCalls zone existing records keys, callOK c zone x = true) :
    (∃ l, (appendRecords c zone records).2 = some l ∧ l.length = records.length) ∧
    (∃ l, (setRecords c zone existing records keys).2 = some l ∧ l.length = records.length) := by
  constructor
  · have h := appendRecords_eq_run c zone records
    rw [runCalls_all_ok c zone _ hokA] at h
    refine ⟨(appendFullCalls zone records).filterMap (callResult c zone), ?_, ?_⟩
    · rw [congrArg Prod.snd h]; simp
    · rw [filterMap_length_all_isSome _ _ (fun x hx => callResult_isSome_of_ok (hokA x hx) ?_)]
      · simp [appendFullCalls]
      · rcases List.mem_map.mp hx with ⟨r, _, rfl⟩
        exact Or.inr ⟨libdnsToInternal zone r, rfl⟩
  · have h := setRecords_eq_run c zone existing records keys
    rw [runCalls_all_ok c zone _ hokS] at h
    refine ⟨(setFullCalls zone existing records keys).filterMap (callResult c zone), ?_, ?_⟩
    · rw [congrArg Prod.snd h]; simp
    · rw [setResult_length c zone existing records keys hokS,
        sum_bucket_lengths zone records keys hnd hcover]

/-- Witness for C10: two appended records yield two returned records, and
a two-record `SetRecords` input against one existing record yields two
returned records. -/
theorem append_set_result_length_witness :
    (∃ l, (appendRecords okClient "example.com."
        [⟨"www", "A", "192.0.2.1", 3600⟩, ⟨"www", "A", "192.0.2.2", 3600⟩]).2 = some l ∧
      l.length = 2) ∧
    (∃ l, (setRecords okClient "example.com."
        [{ id := 10, name := "www", type := "A", content := "192.0.2.5", ttl := 3600 }]
        [⟨"www", "A", "192.0.2.1", 3600⟩, ⟨"www", "A", "192.0.2.2", 3600⟩]
        [("www", "A")]).2 = some l ∧ l.length = 2) :=
  append_set_result_length okClient "example.com."
    [{ id := 10, name := "www", type := "A", content := "192.0.2.5", ttl := 3600 }]
    [⟨"www", "A", "192.0.2.1", 3600⟩, ⟨"www", "A", "192.0.2.2", 3600⟩]
    [("www", "A")]
    (by decide) (by decide) (by decide) (by decide) (by decide)

/-- With a failure-free oracle, the content-match scan of `DeleteRecords`
deletes exactly the exact `(name, type, content)` matches, returns their
translations, and reports whether any match was found. -/
theorem deleteScan_ok (c : Client) (zone : String) (ir : Record) :
    ∀ existing : List Record,
      (∀ e ∈ existing, (c.deleteRecord e.id).isSome) →
      (∀ e ∈ existing, (c.parse (internalToLibdnsRR zone e)).isSome) →
      deleteScan c zone ir existing =
        ((existing.filter (fun e =>
            e.name == ir.name && e.type == ir.type && e.content == ir.content)).map
          (fun e => Call.delete e.id),
         some ((existing.filter (fun e =>
            e.name == ir.name && e.type == ir.type && e.content == ir.content)).filterMap
              (fun e => c.parse (internalToLibdnsRR zone e)),
           !(existing.filter (fun e =>
            e.name == ir.name && e.type == ir.type && e.content == ir.content)).isEmpty)) := by
  intro existing
  induction existing with
  | nil => intro _ _; rfl
  | cons e es ih =>
    intro hdel hparse
    have ihs := ih (fun x hx => hdel x (List.mem_cons_of_mem e hx))
      (fun x hx => hparse x (List.mem_cons_of_mem e hx))
    by_cases hm : (e.name == ir.name && e.type == ir.type && e.content == ir.content) = true
    · rcases Option.isSome_iff_exists.mp (hdel e (List.mem_cons_self e es)) with ⟨u, hu⟩
      rcases Option.isSome_iff_exists.mp (hparse e (List.mem_cons_self e es)) with ⟨lr, hlr⟩
      simp [deleteScan, List.filter_cons, hm, hu, hlr, ihs]
    · simp [deleteScan, List.filter_cons, hm, ihs]

/-- With a failure-free oracle, the `(name, type)` fallback of
`DeleteRecords` deletes exactly the first key match, if any, and returns
its translation. -/
theorem deleteFallback_ok (c : Client) (zone : String) (ir : Record) :
    ∀ existing : List Record,
      (∀ e ∈ existing, (c.deleteRecord e.id).isSome) →
      (∀ e ∈ existing, (c.parse (internalToLibdnsRR zone e)).isSome) →
      deleteFallback c zone ir existing =
        (((existing.find? (fun e => e.name == ir.name && e.type == ir.type)).toList).map
          (fun e => Call.delete e.id),
         some (((existing.find? (fun e => e.name == ir.name && e.type == ir.type)).toList).filterMap
          (fun e => c.parse (internalToLibdnsRR zone e)))) := by
  intro existing
  induction existing with
  | nil => intro _ _; rfl
  | cons e es ih =>
    intro hdel hparse
    have ihs := ih (fun x hx => hdel x (List.mem_cons_of_mem e hx))
      (fun x hx => hparse x (List.mem_cons_of_mem e hx))
    by_cases hm : (e.name == ir.name && e.type == ir.type) = true
    · rcases Option.isSome_iff_exists.mp (hdel e (List.mem_cons_self e es)) with ⟨u, hu⟩
      rcases Option.isSome_iff_exists.mp (hparse e (List.mem_cons_self e es)) with ⟨lr, hlr⟩
      simp [deleteFallback, List.find?_cons_of_pos _ hm, hm, hu, hlr]
    · simp [deleteFallback,
        @List.find?_cons_of_neg _ (fun e => e.name == ir.name && e.type == ir.type) e es hm,
        hm, ihs]

/-- With a failure-free oracle, one `DeleteRecords` input deletes exactly
`expectedDeleted` and returns those records translated. -/
theorem deleteOne_ok (c : Client) (zone : String) (ir : Record) (existing : List Record)
    (hdel : ∀ e ∈ existing, (c.deleteRecord e.id).isSome)
    (hparse : ∀ e ∈ existing, (c.parse (internalToLibdnsRR zone e)).isSome) :
    deleteOne c zone existing ir =
      ((expectedDeleted existing ir).map (fun e => Call.delete e.id),
       some ((expectedDeleted existing ir).filterMap
        (fun e => c.parse (internalToLibdnsRR zone e)))) := by
  have hs := deleteScan_ok c zone ir existing hdel hparse
  have hf := deleteFallback_ok c zone ir existing hdel hparse
  by_cases hms : (existing.filter (fun e =>
      e.name == ir.name && e.type == ir.type && e.content == ir.content)).isEmpty = true
  · simp [deleteOne, hs, hf, hms, expectedDeleted, List.isEmpty_iff.mp hms]
  · simp [deleteOne, hs, hms, expectedDeleted]

/-- C4: with a failure-free oracle, `DeleteRecords` deletes, for each
input record in turn, every current record matching it exactly on
`(name, type, content)` after translation — or, when no such match
exists, the first current record matching on `(name, type)` alone, if
any — and returns the translations of all deleted records. -/
theorem deleteRecords_matching (c : Client) (zone : String) (existing : List Record)
    (records : List RR)
    (hdel : ∀ e ∈ existing, (c.deleteRecord e.id).isSome)
    (hparse : ∀ e ∈ existing, (c.parse (internalToLibdnsRR zone e)).isSome) :
    deleteRecords c zone existing records =
      ((records.map (fun r =>
          (expectedDeleted existing (libdnsToInternal zone r)).map
            (fun e => Call.delete e.id))).flatten,
       some ((records.map (fun r =>
          (expectedDeleted existing (libdnsToInternal zone r)).filterMap
            (fun e => c.parse (internalToLibdnsRR zone e)))).flatten)) := by
  induction records with
  | nil => rfl
  | cons r rest ih =>
    simp [deleteRecords, deleteOne_ok c zone (libdnsToInternal zone r) existing hdel hparse, ih]

/-- Witness for C4: an input matching two stored records exactly on
`(name, type, content)` deletes both (and only those); an input whose
content matches nothing deletes the first `(name, type)` match; both sets
of deleted records come back translated. -/
theorem deleteRecords_matching_witness :
    deleteRecords okClient "example.com."
        [{ id := 1, name := "www", type := "A", content := "192.0.2.1", ttl := 3600 },
         { id := 2, name := "www", type := "A", content := "192.0.2.9", ttl := 3600 },
         { id := 3, name := "www", type := "A", content := "192.0.2.1", ttl := 3600 },
         { id := 4, name := "mail", type := "A", content := "192.0.2.2", ttl := 3600 }]
        [⟨"www", "A", "192.0.2.1", 3600⟩, ⟨"mail", "A", "10.0.0.1", 3600⟩] =
      ([Call.delete 1, Call.delete 3, Call.delete 4],
       some [⟨"www.example.com.", "A", "192.0.2.1", 3600⟩,
         ⟨"www.example.com.", "A", "192.0.2.1", 3600⟩,
         ⟨"mail.example.com.", "A", "192.0.2.2", 3600⟩]) := by
  have h := deleteRecords_matching okClient "example.com."
    [{ id := 1, name := "www", type := "A", content := "192.0.2.1", ttl := 3600 },
     { id := 2, name := "www", type := "A", content := "192.0.2.9", ttl := 3600 },
     { id := 3, name := "www", type := "A", content := "192.0.2.1", ttl := 3600 },
     { id := 4, name := "mail", type := "A", content := "192.0.2.2", ttl := 3600 }]
    [⟨"www", "A", "192.0.2.1", 3600⟩, ⟨"mail", "A", "10.0.0.1", 3600⟩]
    (by decide) (by decide)
  exact h.trans (by decide)

/-- The `GetRecords` translation loop keeps exactly the records the codec
accepts, in order. -/
theorem getRecordsLoop_filterMap (c : Client) (zone : String) :
    ∀ rs : List Record,
      getRecordsLoop c zone rs = rs.filterMap (fun r => c.parse (internalToLibdnsRR zone r)) := by
  intro rs
  induction rs with
  | nil => rfl
  | cons r rest ih =>
    cases hp : c.parse (internalToLibdnsRR zone r) with
    | none => simp [getRecordsLoop, hp, ih]
    | some lr => simp [getRecordsLoop, hp, ih]

/-- C7: `GetRecords` succeeds whenever the zone resolves, returning the
codec-accepted translations and silently omitting every record whose
translation fails; a zone with no records yields an empty (not erroneous)
result; an unresolvable zone yields an error. -/
theorem getRecords_besteffort (c : Client) (zones : List Zone) (recsOf : Int → List Record)
    (zone : String) :
    (∀ zid, getZoneID zones zone = some zid →
      getRecords c zones recsOf zone =
        some ((recsOf zid).filterMap (fun r => c.parse (internalToLibdnsRR zone r)))) ∧
    (∀ zid, getZoneID zones zone = some zid → recsOf zid = [] →
      getRecords c zones recsOf zone = some []) ∧
    (getZoneID zones zone = none → getRecords c zones recsOf zone = none) := by
  refine ⟨?_, ?_, ?_⟩
  · intro zid h
    simp [getRecords, h, getRecordsLoop_filterMap]
  · intro zid h h2
    simp [getRecords, h, h2, getRecordsLoop_filterMap]
  · intro h
    simp [getRecords, h]

/-- Witness for C7: with a codec that rejects TXT records, a zone holding
one A and one TXT record lists just the A record with no error; an
existing empty zone lists as `some []`; an absent zone is an error. -/
theorem getRecords_besteffort_witness :
    getRecords txtRejectClient [⟨1, "example.com"⟩, ⟨2, "empty.org"⟩]
        (fun zid => if zid == 1 then
          [{ id := 7, name := "www", type := "A", content := "192.0.2.1", ttl := 3600 },
           { id := 8, name := "x", type := "TXT", content := "tok", ttl := 300 }]
          else []) "example.com" =
      some [⟨"www.example.com.", "A", "192.0.2.1", 3600⟩] ∧
    getRecords txtRejectClient [⟨1, "example.com"⟩, ⟨2, "empty.org"⟩]
        (fun zid => if zid == 1 then
          [{ id := 7, name := "www", type := "A", content := "192.0.2.1", ttl := 3600 },
           { id := 8, name := "x", type := "TXT", content := "tok", ttl := 300 }]
          else []) "empty.org" =
      some [] ∧
    getRecords txtRejectClient [⟨1, "example.com"⟩, ⟨2, "empty.org"⟩]
        (fun zid => if zid == 1 then
          [{ id := 7, name := "www", type := "A", content := "192.0.2.1", ttl := 3600 },
           { id := 8, name := "x", type := "TXT", content := "tok", ttl := 300 }]
          else []) "missing.net" =
      none := by
  have h1 := getRecords_besteffort txtRejectClient [⟨1, "example.com"⟩, ⟨2, "empty.org"⟩]
    (fun zid => if zid == 1 then
      [{ id := 7, name := "www", type := "A", content := "192.0.2.1", ttl := 3600 },
       { id := 8, name := "x", type := "TXT", content := "tok", ttl := 300 }]
      else []) "example.com"
  have h2 := getRecords_besteffort txtRejectClient [⟨1, "example.com"⟩, ⟨2, "empty.org"⟩]
    (fun zid => if zid == 1 then
      [{ id := 7, name := "www", type := "A", content := "192.0.2.1", ttl := 3600 },
       { id := 8, name := "x", type := "TXT", content := "tok", ttl := 300 }]
      else []) "empty.org"
  have h3 := getRecords_besteffort txtRejectClient [⟨1, "example.com"⟩, ⟨2, "empty.org"⟩]
    (fun zid => if zid == 1 then
      [{ id := 7, name := "www", type := "A", content := "192.0.2.1", ttl := 3600 },
       { id := 8, name := "x", type := "TXT", content := "tok", ttl := 300 }]
      else []) "missing.net"
  exact ⟨(h1.1 1 (by decide)).trans (by decide),
    h2.2.1 2 (by decide) (by decide),
    h3.2.2 (by decide)⟩

/-- A string without a trailing dot is unchanged by `TrimSuffix(s, ".")`. -/
theorem trimSuffixGo_no_dot {s : String} (h : ¬ hasSuffixGo s "." = true) :
    trimSuffixGo s "." = s := by
  rw [hasSuffixGo] at h
  simp only [trimSuffixGo, if_neg h]

/-- Appending a dot and trimming it gives the string back. -/
theorem trimSuffixGo_append_dot (s : String) : trimSuffixGo (s ++ ".") "." = s := by
  have hsuf : (String.data ".").isSuffixOf (s ++ ".").data = true := by
    rw [String.data_append]
    exact List.isSuffixOf_iff_suffix.mpr (List.suffix_append s.data (String.data "."))
  apply String.ext
  simp only [trimSuffixGo, hsuf, if_true]
  rw [String.data_append, List.length_append]
  have hone : (String.data ".").length = 1 := rfl
  rw [hone, Nat.add_sub_cancel]
  exact List.take_left s.data (String.data ".")

/-- Zone lookup depends only on the ids and dot-trimmed names of the
candidates. -/
theorem getZoneID_trim_invariant (q : String) :
    ∀ zs1 zs2 : List Zone,
      zs1.map (fun z => (z.id, trimSuffixGo z.name ".")) =
        zs2.map (fun z => (z.id, trimSuffixGo z.name ".")) →
      getZoneID zs1 q = getZoneID zs2 q := by
  intro zs1
  induction zs1 with
  | nil =>
    intro zs2 h
    cases zs2 with
    | nil => rfl
    | cons w ws => simp at h
  | cons z zs ih =>
    intro zs2 h
    cases zs2 with
    | nil => simp at h
    | cons w ws =>
      simp only [List.map_cons, List.cons.injEq, Prod.mk.injEq] at h
      obtain ⟨⟨hid, htrim⟩, hrest⟩ := h
      simp only [getZoneID, List.find?_cons, htrim, hid]
      cases hp : (trimSuffixGo w.name "." == trimSuffixGo q ".") with
      | true => simp [hid]
      | false => exact ih ws hrest

/-- C6: zone resolution strips one trailing separator from the query and
from each candidate name; it is insensitive to appending a separator to a
dotless query, depends only on trimmed candidate names, returns the first
trimmed-equal candidate's id, succeeds only on exact (case-sensitive)
trimmed equality, and fails exactly when no candidate matches. -/
theorem getZoneID_matching (zones : List Zone) (q : String) :
    (¬ hasSuffixGo q "." = true → getZoneID zones (q ++ ".") = getZoneID zones q) ∧
    (∀ zs2 : List Zone,
      zones.map (fun z => (z.id, trimSuffixGo z.name ".")) =
        zs2.map (fun z => (z.id, trimSuffixGo z.name ".")) →
      getZoneID zones q = getZoneID zs2 q) ∧
    (∀ i, getZoneID zones q = some i →
      ∃ z ∈ zones, z.id = i ∧ trimSuffixGo z.name "." = trimSuffixGo q ".") ∧
    (getZoneID zones q = none ↔
      ∀ z ∈ zones, trimSuffixGo z.name "." ≠ trimSuffixGo q ".") ∧
    (∀ z zs, zones = z :: zs →
      getZoneID zones q =
        if trimSuffixGo z.name "." = trimSuffixGo q "." then some z.id
        else getZoneID zs q) := by
  refine ⟨?_, getZoneID_trim_invariant q zones, ?_, ?_, ?_⟩
  · intro h
    simp only [getZoneID, trimSuffixGo_append_dot, trimSuffixGo_no_dot h]
  · intro i h
    simp only [getZoneID, Option.map_eq_some'] at h
    rcases h with ⟨z, hz, hid⟩
    refine ⟨z, List.mem_of_find?_eq_some hz, hid, ?_⟩
    have := List.find?_some hz
    exact beq_iff_eq.mp this
  · simp only [getZoneID, Option.map_eq_none', List.find?_eq_none, beq_iff_eq]
  · intro z zs hzs
    subst hzs
    simp only [getZoneID, List.find?_cons]
    by_cases h : trimSuffixGo z.name "." = trimSuffixGo q "."
    · simp [h]
    · simp only [beq_eq_false_iff_ne.mpr h, if_neg h]

/-- Witness for C6: `example.com` resolves with and without a trailing
dot to the same id; the match carries trimmed-name equality; a
case-mismatched candidate does not match; the first of two trimmed-equal
candidates wins. -/
theorem getZoneID_matching_witness :
    getZoneID [⟨1, "example.com"⟩, ⟨2, "example.org"⟩] ("example.com" ++ ".") =
      getZoneID [⟨1, "example.com"⟩, ⟨2, "example.org"⟩] "example.com" ∧
    (∃ z ∈ [(⟨1, "example.com"⟩ : Zone), ⟨2, "example.org"⟩], z.id = 1 ∧
      trimSuffixGo z.name "." = trimSuffixGo "example.com" ".") ∧
    getZoneID [⟨1, "EXAMPLE.COM"⟩] "example.com" = none ∧
    getZoneID [⟨1, "example.com."⟩, ⟨2, "example.com"⟩] "example.com" = some 1 := by
  have h1 := getZoneID_matching [⟨1, "example.com"⟩, ⟨2, "example.org"⟩] "example.com"
  have h2 := getZoneID_matching [⟨1, "EXAMPLE.COM"⟩] "example.com"
  have h3 := getZoneID_matching [⟨1, "example.com."⟩, ⟨2, "example.com"⟩] "example.com"
  refine ⟨h1.1 (by decide), h1.2.2.1 1 (by decide), h2.2.2.2.1.mpr (by decide), ?_⟩
  exact (h3.2.2.2.2 ⟨1, "example.com."⟩ [⟨2, "example.com"⟩] rfl).trans (by decide)

/-- C9: canonical-to-provider translation is a total function (it is a
Lean function into `Record`), and for an MX record whose data has fewer
than two whitespace-separated fields, or an SRV record with fewer than
four, the data is passed through unchanged with priority 0. -/
theorem libdnsToInternal_total_passthrough (zone : String) (rr : RR) :
    (rr.type = "MX" → (fieldsGo rr.data).length < 2 →
      (libdnsToInternal zone rr).content = rr.data ∧ (libdnsToInternal zone rr).priority = 0) ∧
    (rr.type = "SRV" → (fieldsGo rr.data).length < 4 →
      (libdnsToInternal zone rr).content = rr.data ∧ (libdnsToInternal zone rr).priority = 0) := by
  constructor
  · intro ht hlen
    simp [libdnsToInternal, ht, Nat.not_le.mpr hlen]
  · intro ht hlen
    simp [libdnsToInternal, ht, Nat.not_le.mpr hlen]

/-- Witness for C9: an MX record with data `"10"` and an SRV record with
data `"10 20 5060"` both pass their data through with priority 0. -/
theorem libdnsToInternal_total_passthrough_witness :
    ((libdnsToInternal "example.com" ⟨"x", "MX", "10", 3600⟩).content = "10" ∧
      (libdnsToInternal "example.com" ⟨"x", "MX", "10", 3600⟩).priority = 0) ∧
    ((libdnsToInternal "example.com" ⟨"x", "SRV", "10 20 5060", 3600⟩).content = "10 20 5060" ∧
      (libdnsToInternal "example.com" ⟨"x", "SRV", "10 20 5060", 3600⟩).priority = 0) :=
  ⟨(libdnsToInternal_total_passthrough "example.com" ⟨"x", "MX", "10", 3600⟩).1
      (by decide) (by decide),
   (libdnsToInternal_total_passthrough "example.com" ⟨"x", "SRV", "10 20 5060", 3600⟩).2
      (by decide) (by decide)⟩

/-- C3: for MX data with a priority token and a target, and SRV data with
a priority token and the three `weight port target` tokens, translation
to provider form parses the first token as the priority and rejoins the
remainder as content; translation back renders `"priority content"`; the
two round trips named by the claim hold. -/
theorem mx_srv_roundtrip :
    (∀ (zone : String) (rr : RR), rr.type = "MX" →
      ∀ p rest, fieldsGo rr.data = p :: rest → rest ≠ [] →
      (libdnsToInternal zone rr).priority = sscanfIntGo p ∧
      (libdnsToInternal zone rr).content = joinSpaceGo rest) ∧
    (∀ (zone : String) (rr : RR), rr.type = "SRV" →
      ∀ p rest, fieldsGo rr.data = p :: rest → 3 ≤ rest.length →
      (libdnsToInternal zone rr).priority = sscanfIntGo p ∧
      (libdnsToInternal zone rr).content = joinSpaceGo rest) ∧
    (∀ (zone : String) (rec : Record), rec.type = "MX" ∨ rec.type = "SRV" →
      (internalToLibdnsRR zone rec).data = toString rec.priority ++ " " ++ rec.content) ∧
    ((libdnsToInternal "example.com." ⟨"@", "MX", "10 mail.example.com", 3600⟩).content =
        "mail.example.com" ∧
      (libdnsToInternal "example.com." ⟨"@", "MX", "10 mail.example.com", 3600⟩).priority = 10 ∧
      (internalToLibdnsRR "example.com."
        (libdnsToInternal "example.com." ⟨"@", "MX", "10 mail.example.com", 3600⟩)).data =
        "10 mail.example.com") ∧
    ((libdnsToInternal "example.com."
        ⟨"_sip._tcp", "SRV", "10 20 5060 sip.example.com", 3600⟩).content =
        "20 5060 sip.example.com" ∧
      (libdnsToInternal "example.com."
        ⟨"_sip._tcp", "SRV", "10 20 5060 sip.example.com", 3600⟩).priority = 10 ∧
      (internalToLibdnsRR "example.com." (libdnsToInternal "example.com."
        ⟨"_sip._tcp", "SRV", "10 20 5060 sip.example.com", 3600⟩)).data =
        "10 20 5060 sip.example.com") := by
  refine ⟨?_, ?_, ?_, by decide, by decide⟩
  · intro zone rr ht p rest hfields hne
    have hr : 1 ≤ rest.length := List.length_pos.mpr hne
    simp [libdnsToInternal, ht, hfields, hr]
  · intro zone rr ht p rest hfields hlen3
    simp [libdnsToInternal, ht, hfields, hlen3]
  · intro zone rec ht
    rcases ht with h | h <;> simp [internalToLibdnsRR, h]

/-- Witness for C3: the general clauses instantiated at the claim's own
MX and SRV data. -/
theorem mx_srv_roundtrip_witness :
    ((libdnsToInternal "example.com." ⟨"@", "MX", "10 mail.example.com", 3600⟩).priority =
        sscanfIntGo "10" ∧
      (libdnsToInternal "example.com." ⟨"@", "MX", "10 mail.example.com", 3600⟩).content =
        joinSpaceGo ["mail.example.com"]) ∧
    ((libdnsToInternal "example.com."
        ⟨"_sip._tcp", "SRV", "10 20 5060 sip.example.com", 3600⟩).priority =
        sscanfIntGo "10" ∧
      (libdnsToInternal "example.com."
        ⟨"_sip._tcp", "SRV", "10 20 5060 sip.example.com", 3600⟩).content =
        joinSpaceGo ["20", "5060", "sip.example.com"]) ∧
    (internalToLibdnsRR "example.com."
        { id := 4, name := "@", type := "MX", content := "mail.example.com", ttl := 3600,
          priority := 10 }).data = toString (10 : Int) ++ " " ++ "mail.example.com" :=
  ⟨mx_srv_roundtrip.1 "example.com." ⟨"@", "MX", "10 mail.example.com", 3600⟩ (by decide)
      "10" ["mail.example.com"] (by decide) (by decide),
   mx_srv_roundtrip.2.1 "example.com." ⟨"_sip._tcp", "SRV", "10 20 5060 sip.example.com", 3600⟩
      (by decide) "10" ["20", "5060", "sip.example.com"] (by decide) (by decide),
   mx_srv_roundtrip.2.2.1 "example.com."
      { id := 4, name := "@", type := "MX", content := "mail.example.com", ttl := 3600,
        priority := 10 } (Or.inl rfl)⟩

/-- A longer list is never a suffix of a shorter one. -/
theorem isSuffixOf_false_of_longer {l₁ l₂ : List Char} (h : l₁.length < l₂.length) :
    l₂.isSuffixOf l₁ = false := by
  cases hb : l₂.isSuffixOf l₁ with
  | false => rfl
  | true =>
    have := (List.isSuffixOf_iff_suffix.mp hb).length_le
    omega

/-- Trimming a suffix never lengthens a string. -/
theorem trimSuffixGo_length_le (s x : String) :
    (trimSuffixGo s x).data.length ≤ s.data.length := by
  rw [trimSuffixGo]
  split
  · simp [List.length_take]
  · exact Nat.le_refl _

/-- For each of the four apex-form names, the zone-suffix cut of
`libdnsToInternal` does not fire. -/
theorem apex_cut_miss (zone : String) {name : String}
    (h : name = "@" ∨ name = "" ∨ name = zone ∨ name = trimSuffixGo zone ".") :
    ("." ++ trimSuffixGo zone ".").data.isSuffixOf (trimSuffixGo name ".").data = false := by
  have hdz : ("." ++ trimSuffixGo zone ".").data = '.' :: (trimSuffixGo zone ".").data := by
    rw [String.data_append]
    rfl
  rcases h with h | h | h | h
  · rw [h, show trimSuffixGo "@" "." = "@" from rfl, hdz]
    cases hb : ('.' :: (trimSuffixGo zone ".").data).isSuffixOf "@".data with
    | false => rfl
    | true =>
      rcases List.isSuffixOf_iff_suffix.mp hb with ⟨t, htt⟩
      have hlen := congrArg List.length htt
      rw [List.length_append, List.length_cons, show ("@" : String).data.length = 1 from rfl]
        at hlen
      have hz0 : (trimSuffixGo zone ".").data = [] := List.eq_nil_of_length_eq_zero (by omega)
      have ht0 : t = [] := List.eq_nil_of_length_eq_zero (by omega)
      rw [ht0, hz0] at htt
      exact absurd htt (by decide)
  · rw [h, show trimSuffixGo "" "." = "" from rfl, hdz]
    refine isSuffixOf_false_of_longer ?_
    rw [show ("" : String).data = [] from rfl, List.length_cons]
    exact Nat.succ_pos _
  · rw [h, hdz]
    refine isSuffixOf_false_of_longer ?_
    rw [List.length_cons]
    exact Nat.lt_succ_self _
  · rw [h, hdz]
    refine isSuffixOf_false_of_longer ?_
    rw [List.length_cons]
    exact Nat.lt_succ_of_le (trimSuffixGo_length_le (trimSuffixGo zone ".") ".")

/-- When the zone-suffix cut does not fire, the provider name computed by
`libdnsToInternal` is the apex marker exactly for the four apex forms,
and the canonical name unchanged otherwise. -/
theorem libdnsToInternal_name_of_cut_miss (zone : String) (rr : RR)
    (hcut : ("." ++ trimSuffixGo zone ".").data.isSuffixOf
      (trimSuffixGo rr.name ".").data = false) :
    (libdnsToInternal zone rr).name =
      if rr.name = "" || rr.name = "@" || rr.name = zone || rr.name = trimSuffixGo zone "."
        then "@" else rr.name := by
  simp only [libdnsToInternal, cutSuffixGo, hcut, Bool.false_eq_true, if_false]


/-- C2 counterexample: with the zone written without a trailing
separator, a canonical name equal to the zone plus the separator is not
normalized to the apex marker; and in the reverse direction an SRV
provider record named `"@"` reconstructs to the placeholder name, not to
the zone with a trailing separator. -/
theorem apex_normalization_cex :
    (libdnsToInternal "example.com" ⟨"example.com.", "A", "192.0.2.1", 3600⟩).name =
      "example.com." ∧
    ("example.com." : String) ≠ "@" ∧
    (internalToLibdnsRR "example.com"
      { id := 7, name := "@", type := "SRV", content := "20 5060 sip.example.com",
        ttl := 3600, priority := 10 }).name = "_service._tcp.example.com." ∧
    ("_service._tcp.example.com." : String) ≠ "example.com." := by
  refine ⟨by decide, by decide, by decide, by decide⟩

/-- C2 amended: canonical names `"@"`, `""`, the zone as given, and the
zone minus one trailing separator all normalize to the provider apex
marker `"@"`; when the zone is written without a trailing separator, the
canonical name `zone ++ "."` is passed through unchanged instead; and in
the provider-to-canonical direction, for non-SRV records, name `"@"` or
`""` reconstructs to the zone name with a trailing separator (the zone
itself when it already ends with one). -/
theorem apex_normalization_amended (zone : String) (rr : RR) (rec : Record) :
    (rr.name = "@" ∨ rr.name = "" ∨ rr.name = zone ∨ rr.name = trimSuffixGo zone "." →
      (libdnsToInternal zone rr).name = "@") ∧
    (¬ hasSuffixGo zone "." = true → rr.name = zone ++ "." →
      (libdnsToInternal zone rr).name = zone ++ ".") ∧
    (rec.type ≠ "SRV" → rec.name = "@" ∨ rec.name = "" →
      (internalToLibdnsRR zone rec).name =
        if hasSuffixGo zone "." = true then zone else zone ++ ".") := by
  refine ⟨?_, ?_, ?_⟩
  · intro h
    rw [libdnsToInternal_name_of_cut_miss zone rr (apex_cut_miss zone h)]
    refine if_pos ?_
    simp only [Bool.or_eq_true, decide_eq_true_eq]
    rcases h with h | h | h | h
    · exact Or.inl (Or.inl (Or.inr h))
    · exact Or.inl (Or.inl (Or.inl h))
    · exact Or.inl (Or.inr h)
    · exact Or.inr h
  · intro hz h
    have hzz : trimSuffixGo zone "." = zone := trimSuffixGo_no_dot hz
    have hcut : ("." ++ trimSuffixGo zone ".").data.isSuffixOf
        (trimSuffixGo rr.name ".").data = false := by
      rw [h, trimSuffixGo_append_dot zone, hzz, String.data_append,
        show (String.data ".") = ['.'] from rfl]
      exact isSuffixOf_false_of_longer (by simp)
    have hlen1 : (zone ++ ".").data.length = zone.data.length + 1 := by
      rw [String.data_append, List.length_append]
      rfl
    have e1 : (String.data ".").length = 1 := rfl
    have d1 : ¬ (zone ++ "." = "") := by
      intro he
      have hd := congrArg String.data he
      rw [String.data_append] at hd
      have hl := congrArg List.length hd
      rw [List.length_append] at hl
      have e0 : (String.data "").length = 0 := rfl
      omega
    have d2 : ¬ (zone ++ "." = "@") := by
      intro he
      have hd := congrArg String.data he
      rw [String.data_append] at hd
      have hl := congrArg List.length hd
      rw [List.length_append] at hl
      have e2 : (String.data "@").length = 1 := rfl
      have hz0 : zone.data = [] := List.eq_nil_of_length_eq_zero (by omega)
      rw [hz0, List.nil_append] at hd
      exact absurd hd (by decide)
    have d3 : ¬ (zone ++ "." = zone) := by
      intro he
      have hd := congrArg String.data he
      rw [String.data_append] at hd
      have hl := congrArg List.length hd
      rw [List.length_append] at hl
      omega
    rw [libdnsToInternal_name_of_cut_miss zone rr hcut, h]
    refine if_neg ?_
    simp only [Bool.or_eq_true, decide_eq_true_eq, hzz]
    rintro (((hc | hc) | hc) | hc)
    · exact d1 hc
    · exact d2 hc
    · exact d3 hc
    · exact d3 hc
  · intro hsrv h
    have hsrvb : decide (rec.type = "SRV") = false := decide_eq_false hsrv
    have hcond : (rec.name = "" || rec.name = "@") = true := by
      simp only [Bool.or_eq_true, decide_eq_true_eq]
      rcases h with h | h
      · exact Or.inr h
      · exact Or.inl h
    simp only [internalToLibdnsRR, hsrvb, Bool.false_and, Bool.false_eq_true, if_false, hcond,
      if_true]
    cases hz : hasSuffixGo zone "." with
    | false => simp [hz]
    | true => simp [hz]

/-- Witness for C2's amended claim: concrete apex normalizations for a
dotted and an undotted zone, the pass-through of `zone ++ "."` when the
zone is undotted, and the `"@"` reconstruction for a non-SRV record. -/
theorem apex_normalization_amended_witness :
    (libdnsToInternal "example.com" ⟨"example.com", "A", "192.0.2.1", 3600⟩).name = "@" ∧
    (libdnsToInternal "example.com." ⟨"example.com.", "A", "192.0.2.1", 3600⟩).name = "@" ∧
    (libdnsToInternal "example.com" ⟨"example.com.", "A", "192.0.2.1", 3600⟩).name =
      "example.com" ++ "." ∧
    (internalToLibdnsRR "example.com"
      { id := 4, name := "@", type := "MX", content := "mail.example.com", ttl := 3600,
        priority := 10 }).name =
      if hasSuffixGo "example.com" "." = true then "example.com" else "example.com" ++ "." :=
  ⟨(apex_normalization_amended "example.com" ⟨"example.com", "A", "192.0.2.1", 3600⟩
      default).1 (Or.inr (Or.inr (Or.inl rfl))),
   (apex_normalization_amended "example.com." ⟨"example.com.", "A", "192.0.2.1", 3600⟩
      default).1 (Or.inr (Or.inr (Or.inl rfl))),
   (apex_normalization_amended "example.com" ⟨"example.com.", "A", "192.0.2.1", 3600⟩
      default).2.1 (by decide) rfl,
   (apex_normalization_amended "example.com" default
      { id := 4, name := "@", type := "MX", content := "mail.example.com", ttl := 3600,
        priority := 10 }).2.2 (by decide) (Or.inl rfl)⟩

end Tecnocratica
